import Mathlib

/-!
Verification of the Go SSRF monitor (`main.go`): a passive HTTP traffic
recorder keeping a bounded, newest-first in-memory log of captured
request/response pairs, with an admin view exposing a JSON/base64 bulk
export and a clear endpoint.

The development shallowly embeds the program:
* `LogEntry` mirrors the Go struct `LogEntry` (int64 `ID` as `Int`).
* `insertLog` embeds the store mutation in `handleAll` (lines 107-112):
  prepend, then truncate with the Go slice expression `accessLogs[:maxLogs]`,
  which panics (modelled as `none`) when `maxLogs` is negative.
* A small slice-heap model (`SliceHeap`, `ServerState`) embeds the Go slice
  semantics relevant to aliasing: every operation of this program allocates a
  fresh backing array (`append` to a one-element literal, `make`+`copy`,
  a fresh empty slice literal) and never writes into an existing one.
* `handleAll`, `handleClear` and the export pipeline of `handleAdmin`
  (`json.Marshal` + `base64.StdEncoding.EncodeToString`) are embedded as
  pure functions; the wall clock readings of `time.Now()` are an explicit
  `GoTime` input (the capture instant), broken down the way the Go time
  formatting calls consume it.
-/

namespace GoSsrfServ

/-- Mirror of the Go struct `LogEntry` (main.go lines 17-24).  `ID` is an
`int64` nanosecond timestamp, the remaining fields are strings. -/
structure LogEntry where
  ID : Int
  Timestamp : String
  FilenameTS : String
  IP : String
  RawRequest : String
  RawResponse : String
deriving DecidableEq, Repr

/-! ## Log Store: insert (handleAll lines 107-112)

```go
accessLogs = append([]LogEntry{entry}, accessLogs...)
if len(accessLogs) > maxLogs {
    accessLogs = accessLogs[:maxLogs]
}
```

`maxLogs` is a Go `int`, so it may be negative; the slice expression
`accessLogs[:maxLogs]` panics for a negative bound, modelled as `none`. -/

def insertLog (maxLogs : Int) (entry : LogEntry) (logs : List LogEntry) :
    Option (List LogEntry) :=
  let newLogs := entry :: logs
  if (newLogs.length : Int) > maxLogs then
    if maxLogs < 0 then none
    else some (newLogs.take maxLogs.toNat)
  else some newLogs

/-- Iterating `insertLog` over a sequence of entries (oldest first),
propagating a slice panic. -/
def insertAll (maxLogs : Int) (entries : List LogEntry) (logs : List LogEntry) :
    Option (List LogEntry) :=
  match entries with
  | [] => some logs
  | e :: rest =>
    match insertLog maxLogs e logs with
    | none => none
    | some logs2 => insertAll maxLogs rest logs2

def entryA : LogEntry := ⟨1, "", "", "", "", ""⟩

def entryB : LogEntry := ⟨2, "", "", "", "", ""⟩

def entryC : LogEntry := ⟨3, "", "", "", "", ""⟩

/-! ## Slice-heap model of the store (aliasing behaviour)

To settle the aliasing claims (`Snapshot` is a defensive copy that later
mutations never touch), Go slices are modelled explicitly: a heap of backing
arrays plus a reference `(arrId, len)`.  The three store operations of the
program each allocate a fresh backing array and never write into an existing
one:
* insert (`handleAll` line 108): `append([]LogEntry{entry}, accessLogs...)`
  appends to a one-element slice literal, allocating fresh backing; the
  truncation `accessLogs[:maxLogs]` only reslices the fresh array;
* snapshot (`handleAdmin` lines 121-122): `make` + `copy` into a fresh array;
* clear (`handleClear` line 144): assigns a fresh empty slice literal. -/

structure SliceHeap where
  arrays : List (List LogEntry)
deriving DecidableEq, Repr

structure SliceRef where
  arrId : Nat
  len : Nat
deriving DecidableEq, Repr

structure ServerState where
  heap : SliceHeap
  accessLogs : SliceRef
deriving DecidableEq, Repr

def heapAlloc (h : SliceHeap) (contents : List LogEntry) : SliceHeap × Nat :=
  (⟨h.arrays ++ [contents]⟩, h.arrays.length)

/-- The list of entries a slice reference denotes. -/
def sliceView (h : SliceHeap) (s : SliceRef) : List LogEntry :=
  (h.arrays.getD s.arrId []).take s.len

/-- Store insert of `handleAll` (lines 107-112) over the slice heap.
`append([]LogEntry{entry}, accessLogs...)` allocates a fresh array holding
`entry` followed by the current contents; the truncation reslices it (and
panics, `none`, for negative `maxLogs`). -/
def storeInsert (maxLogs : Int) (entry : LogEntry) (st : ServerState) :
    Option ServerState :=
  let old := sliceView st.heap st.accessLogs
  let alloc := heapAlloc st.heap (entry :: old)
  let newLen := (entry :: old).length
  if (newLen : Int) > maxLogs then
    if maxLogs < 0 then none
    else some ⟨alloc.1, ⟨alloc.2, maxLogs.toNat⟩⟩
  else some ⟨alloc.1, ⟨alloc.2, newLen⟩⟩

/-- Snapshot of `handleAdmin` (lines 120-123):
`logsCopy := make([]LogEntry, len(accessLogs)); copy(logsCopy, accessLogs)`
allocates a fresh array with the same contents and returns a reference to
it; the live store reference is unchanged. -/
def storeSnapshot (st : ServerState) : ServerState × SliceRef :=
  let cur := sliceView st.heap st.accessLogs
  let alloc := heapAlloc st.heap cur
  (⟨alloc.1, st.accessLogs⟩, ⟨alloc.2, cur.length⟩)

/-- Clear of `handleClear` (line 144): `accessLogs = []LogEntry{}` points the
store at a fresh empty array. -/
def storeClear (st : ServerState) : ServerState :=
  let alloc := heapAlloc st.heap []
  ⟨alloc.1, ⟨alloc.2, 0⟩⟩

/-- `handleClear` (lines 142-147): clear the store and answer `"ok"`. -/
def handleClear (st : ServerState) : ServerState × String :=
  (storeClear st, "ok")

def stateW : ServerState := ⟨⟨[[entryA, entryB]]⟩, ⟨0, 2⟩⟩

/-! ## Decimal rendering (`fmt.Sprintf` `%d`, `strconv`) -/

/-- Little-endian decimal digits of `n`; `fuel ≥ n` suffices. -/
def natDigitsRev : Nat → Nat → List Char
  | 0, _ => []
  | f + 1, n => if n = 0 then [] else Nat.digitChar (n % 10) :: natDigitsRev f (n / 10)

/-- Decimal rendering of a `Nat`, as Go prints it. -/
def natRepr (n : Nat) : List Char :=
  if n = 0 then ['0'] else (natDigitsRev n n).reverse

def natReprStr (n : Nat) : String := (natRepr n).asString

/-- Decimal rendering of an `int64`, as Go prints it. -/
def intRepr (i : Int) : List Char :=
  if i < 0 then '-' :: natRepr i.natAbs else natRepr i.toNat

/-! ## Wall clock and the Go time formats used by `handleAll`

`time.Now()` is an environment input: one capture instant per request,
carried as its broken-down UTC components plus the `UnixNano()` reading.
The three `Format` calls of the program use the constant layouts
`http.TimeFormat` (= `"Mon, 02 Jan 2006 15:04:05 GMT"`),
`"2006-01-02 15:04:05"` and `"20060102_150405"`; each is embedded as the
expansion of its layout.  (The program calls `time.Now()` twice, lines 93
and 97, nanoseconds apart; both readings are modelled by the one capture
instant, and the `.UTC()` conversion is absorbed into the given
components.) -/

structure GoTime where
  year : Nat
  month : Nat
  day : Nat
  hour : Nat
  minute : Nat
  sec : Nat
  /-- Day of the week, Sunday = 0 (Go's `time.Weekday` convention). -/
  weekday : Nat
  /-- The `UnixNano()` reading of the same instant. -/
  unixNano : Int
deriving DecidableEq, Repr

def weekdayName (w : Nat) : String :=
  ["Sun", "Mon", "Tue", "Wed", "Thu", "Fri", "Sat"].getD w "Sun"

def monthName (m : Nat) : String :=
  ["Jan", "Feb", "Mar", "Apr", "May", "Jun", "Jul", "Aug", "Sep", "Oct",
    "Nov", "Dec"].getD (m - 1) "Jan"

/-- Zero-pad to two digits (Go layout elements `02`, `01`, `15`, `04`, `05`). -/
def pad2 (n : Nat) : String :=
  if n < 10 then "0" ++ natReprStr n else natReprStr n

/-- Zero-pad to four digits (Go layout element `2006`). -/
def pad4 (n : Nat) : String :=
  if n < 10 then "000" ++ natReprStr n
  else if n < 100 then "00" ++ natReprStr n
  else if n < 1000 then "0" ++ natReprStr n
  else natReprStr n

/-- `time.Now().UTC().Format(http.TimeFormat)` (line 93): the HTTP-date /
RFC 1123 layout `"Mon, 02 Jan 2006 15:04:05 GMT"`. -/
def httpDate (t : GoTime) : String :=
  weekdayName t.weekday ++ ", " ++ pad2 t.day ++ " " ++ monthName t.month ++
    " " ++ pad4 t.year ++ " " ++ pad2 t.hour ++ ":" ++ pad2 t.minute ++ ":" ++
    pad2 t.sec ++ " GMT"

/-- `now.Format("2006-01-02 15:04:05")` (line 100). -/
def timestampStr (t : GoTime) : String :=
  pad4 t.year ++ "-" ++ pad2 t.month ++ "-" ++ pad2 t.day ++ " " ++
    pad2 t.hour ++ ":" ++ pad2 t.minute ++ ":" ++ pad2 t.sec

/-- `now.Format("20060102_150405")` (line 101). -/
def filenameTsStr (t : GoTime) : String :=
  pad4 t.year ++ pad2 t.month ++ pad2 t.day ++ "_" ++ pad2 t.hour ++
    pad2 t.minute ++ pad2 t.sec

/-- Go `len` of a string: its UTF-8 byte length. -/
def goLen (s : String) : Nat := s.utf8ByteSize

/-- The synthetic recorded response (lines 94-95):
`fmt.Sprintf("HTTP/1.1 200 OK\nDate: %s\nContent-Type: text/plain;
charset=utf-8\nContent-Length: %d\n\n%s", dateStr, len(responseBody),
responseBody)`. -/
def rawResponse (t : GoTime) (responseBody : String) : String :=
  "HTTP/1.1 200 OK\nDate: " ++ httpDate t ++
    "\nContent-Type: text/plain; charset=utf-8\nContent-Length: " ++
    natReprStr (goLen responseBody) ++ "\n\n" ++ responseBody

/-! ## Inbound requests and `httputil.DumpRequest` -/

/-- An inbound HTTP request as `handleAll` consumes it.  `xForwardedFor` is
`r.Header.Get("X-Forwarded-For")` (`""` when the header is absent);
`bodyReadErr` records whether reading the request body fails. -/
structure GoRequest where
  method : String
  /-- Request target: path plus query string, as in the request line. -/
  target : String
  proto : String
  path : String
  headers : List (String × String)
  body : String
  xForwardedFor : String
  remoteAddr : String
  bodyReadErr : Bool
deriving DecidableEq, Repr

/-- `strings.Split` on a single-character separator, structural on the
character list (Go's `Split(s, ",")`: at least one group, empty input gives
one empty group). -/
def splitOnChar (sep : Char) : List Char → List (List Char)
  | [] => [[]]
  | c :: rest =>
    if c = sep then [] :: splitOnChar sep rest
    else
      match splitOnChar sep rest with
      | [] => [[c]]
      | g :: gs => (c :: g) :: gs

/-- `strings.Split(s, sep)` for a one-character separator. -/
def goSplit (s : String) (sep : Char) : List String :=
  (splitOnChar sep s.toList).map List.asString

/-- Whitespace as `strings.TrimSpace` trims it (`unicode.IsSpace`, the
Latin-1 range). -/
def goIsSpace (c : Char) : Bool :=
  c == ' ' || c == '\t' || c == '\n' || c == '\x0b' || c == '\x0c' ||
    c == '\r' || c.toNat == 0x85 || c.toNat == 0xA0

/-- `strings.TrimSpace`. -/
def goTrimSpace (s : String) : String :=
  (((s.toList.dropWhile goIsSpace).reverse.dropWhile goIsSpace).reverse).asString

/-- Index of the last `':'` in a character list, if any. -/
def lastColonIdx : List Char → Option Nat
  | [] => none
  | c :: rest =>
    match lastColonIdx rest with
    | some i => some (i + 1)
    | none => if c = ':' then some 0 else none

/-- `net.SplitHostPort`: split `host:port` (or `[host]:port`) at the last
colon.  Modelled on well-formed addresses; the malformed shapes Go rejects
(`missing port`, `too many colons`, bad brackets) are collapsed to `none`,
matching the error return. -/
def splitHostPort (s : String) : Option (String × String) :=
  let cs := s.toList
  match lastColonIdx cs with
  | none => none
  | some i =>
    let host := cs.take i
    let port := cs.drop (i + 1)
    if host.headD ' ' = '[' then
      if host.getLast? = some ']' then
        some (((host.drop 1).dropLast).asString, port.asString)
      else none
    else if host.contains ':' then none
    else some (host.asString, port.asString)

/-- `ip, _, _ := net.SplitHostPort(r.RemoteAddr)` (line 79): the host part,
or `""` when `SplitHostPort` returns an error. -/
def goHost (s : String) : String :=
  ((splitHostPort s).map Prod.fst).getD ""

/-- The header block of a dumped request, one `Name: value` line per header. -/
def headerLines (hs : List (String × String)) : String :=
  hs.foldr (fun h acc => h.1 ++ ": " ++ h.2 ++ "\r\n" ++ acc) ""

/-- The text `httputil.DumpRequest(r, true)` produces when it succeeds:
request line, header lines, blank line, body (wire-like, `\r\n` endings).
Header order is taken from the request's header list (Go does not guarantee
an order). -/
def dumpRequestOk (req : GoRequest) : String :=
  req.method ++ " " ++ req.target ++ " " ++ req.proto ++ "\r\n" ++
    headerLines req.headers ++ "\r\n" ++ req.body

/-- `httputil.DumpRequest(r, true)` (line 92): on a body read failure it
returns `(nil, err)` before dumping anything, so the caller sees no dump at
all. -/
def dumpRequest (req : GoRequest) : Option String :=
  if req.bodyReadErr then none else some (dumpRequestOk req)

/-! ## The capture handler `handleAll` (lines 69-117) -/

structure HandleResult where
  status : Nat
  respBody : String
  /-- The Capture Entry recorded by this request, if any. -/
  newEntry : Option LogEntry
  /-- The store after the request (`none` on a slice panic). -/
  logsAfter : Option (List LogEntry)
deriving DecidableEq, Repr

/-- `handleAll`, over the pure-list view of the store.  Mirrors the source
control flow: favicon check, client IP resolution, path decision, request
dump (`string(nil) = ""` when the dump fails), entry construction, insert,
response. -/
def handleAll (maxLogs : Int) (t : GoTime) (req : GoRequest)
    (logs : List LogEntry) : HandleResult :=
  if req.path = "/favicon.ico" then
    { status := 404, respBody := "", newEntry := none, logsAfter := some logs }
  else
    let clientIP :=
      if req.xForwardedFor ≠ "" then
        goTrimSpace ((goSplit req.xForwardedFor ',').headD "")
      else goHost req.remoteAddr
    if req.path ≠ "/log" ∧ req.path ≠ "/" then
      { status := 404, respBody := "404 Not Found", newEntry := none,
        logsAfter := some logs }
    else
      let responseBody := if req.path = "/log" then "Logged" else "Active"
      let requestDump := (dumpRequest req).getD ""
      let rawResp := rawResponse t responseBody
      let entry : LogEntry :=
        { ID := t.unixNano, Timestamp := timestampStr t,
          FilenameTS := filenameTsStr t, IP := clientIP,
          RawRequest := requestDump, RawResponse := rawResp }
      { status := 200, respBody := responseBody, newEntry := some entry,
        logsAfter := insertLog maxLogs entry logs }

/-- A whole run: one `handleAll` invocation per inbound request, threading
the store. -/
def runHandleAll (maxLogs : Int) (inputs : List (GoTime × GoRequest))
    (logs : List LogEntry) : Option (List LogEntry) :=
  match inputs with
  | [] => some logs
  | (t, r) :: rest =>
    match (handleAll maxLogs t r logs).logsAfter with
    | none => none
    | some logs2 => runHandleAll maxLogs rest logs2

/-! ## Claim theorems about the capture handler -/

def tW : GoTime := ⟨2025, 1, 2, 3, 4, 5, 4, 123⟩

def reqXff : GoRequest :=
  ⟨"GET", "/", "HTTP/1.1", "/", [], "", "1.2.3.4, 5.6.7.8", "9.9.9.9:80",
    false⟩

def entryW : LogEntry :=
  ⟨123, "2025-01-02 03:04:05", "20250102_030405", "1.2.3.4",
    "GET / HTTP/1.1\r\n\r\n",
    "HTTP/1.1 200 OK\nDate: Thu, 02 Jan 2025 03:04:05 GMT\nContent-Type: text/plain; charset=utf-8\nContent-Length: 6\n\nActive"⟩

/-- The reading of claim C6 under test, at one input: when the body read
fails, the capture's raw request text is "otherwise preserved", i.e. equals
the dump of the same request with an empty body and no read failure. -/
abbrev c6Preserved (m : Int) (t : GoTime) (req : GoRequest)
    (logs : List LogEntry) : Prop :=
  (handleAll m t req logs).newEntry.map LogEntry.RawRequest =
    some (dumpRequestOk { req with body := "", bodyReadErr := false })

def reqFail : GoRequest :=
  ⟨"GET", "/", "HTTP/1.1", "/", [("Host", "a.b")], "ignored", "",
    "9.9.9.9:80", true⟩

def tW2 : GoTime := ⟨2025, 1, 2, 3, 4, 6, 4, 456⟩

/-! ## JSON string escaping (`encoding/json`)

`json.Marshal` escapes `"`, `\`, the control characters (with the special
short forms for `\n`, `\r`, `\t`), and — with HTML escaping on by default —
`<`, `>`, `&` and U+2028/U+2029; every other rune is emitted as-is. -/

def hexLowerChar (n : Nat) : Char := "0123456789abcdef".toList.getD n '0'

def hexVal (c : Char) : Option Nat :=
  if '0' ≤ c ∧ c ≤ '9' then some (c.toNat - 48)
  else if 'a' ≤ c ∧ c ≤ 'f' then some (c.toNat - 87)
  else if 'A' ≤ c ∧ c ≤ 'F' then some (c.toNat - 55)
  else none

/-- The escape sequence `encoding/json` emits for one character. -/
def escChar (c : Char) : List Char :=
  if c = '"' then ['\\', '"']
  else if c = '\\' then ['\\', '\\']
  else if c = '\n' then ['\\', 'n']
  else if c = '\r' then ['\\', 'r']
  else if c = '\t' then ['\\', 't']
  else if c.toNat < 0x20 then
    ['\\', 'u', '0', '0', hexLowerChar (c.toNat / 16), hexLowerChar (c.toNat % 16)]
  else if c = '<' then ['\\', 'u', '0', '0', '3', 'c']
  else if c = '>' then ['\\', 'u', '0', '0', '3', 'e']
  else if c = '&' then ['\\', 'u', '0', '0', '2', '6']
  else if c.toNat = 0x2028 then ['\\', 'u', '2', '0', '2', '8']
  else if c.toNat = 0x2029 then ['\\', 'u', '2', '0', '2', '9']
  else [c]

def escString : List Char → List Char
  | [] => []
  | c :: cs => escChar c ++ escString cs

/-- A JSON string literal: quote, escaped content, quote. -/
def jsonQuote (s : String) : List Char := '"' :: (escString s.toList ++ ['"'])

/-- Spec-side JSON string-body decoder: consumes the escaped content up to
and including the closing quote, returning the decoded characters and the
remaining input. -/
def parseStringBody : List Char → Option (List Char × List Char)
  | [] => none
  | c :: rest =>
    if c = '"' then some ([], rest)
    else if c = '\\' then
      match rest with
      | [] => none
      | e :: rest2 =>
        if e = '"' then (parseStringBody rest2).map fun p => ('"' :: p.1, p.2)
        else if e = '\\' then
          (parseStringBody rest2).map fun p => ('\\' :: p.1, p.2)
        else if e = 'n' then
          (parseStringBody rest2).map fun p => ('\n' :: p.1, p.2)
        else if e = 'r' then
          (parseStringBody rest2).map fun p => ('\r' :: p.1, p.2)
        else if e = 't' then
          (parseStringBody rest2).map fun p => ('\t' :: p.1, p.2)
        else if e = 'u' then
          match rest2 with
          | c1 :: c2 :: c3 :: c4 :: rest3 =>
            match hexVal c1, hexVal c2, hexVal c3, hexVal c4 with
            | some a1, some a2, some a3, some a4 =>
              (parseStringBody rest3).map fun p =>
                (Char.ofNat (((a1 * 16 + a2) * 16 + a3) * 16 + a4) :: p.1, p.2)
            | _, _, _, _ => none
          | _ => none
        else none
    else (parseStringBody rest).map fun p => (c :: p.1, p.2)
termination_by structural cs => cs

/-! ## Decimal round-trip -/

def valLE : List Char → Nat
  | [] => 0
  | c :: cs => (c.toNat - 48) + 10 * valLE cs

def valBE (cs : List Char) : Nat :=
  cs.foldl (fun a c => a * 10 + (c.toNat - 48)) 0

/-- The next character (if any) is not a digit, so a decimal parse stops
exactly here. -/
def headNotDigit : List Char → Prop
  | [] => True
  | c :: _ => c.isDigit = false

def parseNat (cs : List Char) : Option (Nat × List Char) :=
  let ds := cs.takeWhile Char.isDigit
  if ds.isEmpty then none
  else some (valBE ds, cs.dropWhile Char.isDigit)

def parseInt (cs : List Char) : Option (Int × List Char) :=
  match cs with
  | [] => none
  | c :: rest =>
    if c = '-' then (parseNat rest).map fun p => (-(p.1 : Int), p.2)
    else (parseNat (c :: rest)).map fun p => ((p.1 : Int), p.2)

/-! ## `json.Marshal` of a `[]LogEntry` (handleAdmin line 125)

Go emits the array `[` entry `,` ... `]` with no whitespace; each entry is
an object whose keys follow the struct tags in declaration order
(`id`, `timestamp`, `filename_ts`, `ip`, `raw_request`, `raw_response`),
the `int64` as a decimal number and the strings escaped as in `escChar`. -/

def litIdKey : List Char := "\"id\":".toList

def litTs : List Char := ",\"timestamp\":\"".toList

def litFn : List Char := ",\"filename_ts\":\"".toList

def litIp : List Char := ",\"ip\":\"".toList

def litRq : List Char := ",\"raw_request\":\"".toList

def litRr : List Char := ",\"raw_response\":\"".toList

/-- The JSON object `json.Marshal` emits for one entry, written with its
opening brace and the quotes around string values explicit. -/
def marshalEntry (e : LogEntry) : List Char :=
  '\x7b' :: (litIdKey ++ (intRepr e.ID ++ (litTs ++
    (escString e.Timestamp.toList ++ ('"' :: (litFn ++
    (escString e.FilenameTS.toList ++ ('"' :: (litIp ++
    (escString e.IP.toList ++ ('"' :: (litRq ++
    (escString e.RawRequest.toList ++ ('"' :: (litRr ++
    (escString e.RawResponse.toList ++ ('"' :: '\x7d' :: [])))))))))))))))))

/-- The `,`-separated entries after the first one. -/
def entryListTail : List LogEntry → List Char
  | [] => []
  | e :: rest => ',' :: (marshalEntry e ++ entryListTail rest)

/-- `json.Marshal(logsCopy)` as a character list: `[]` for the empty
snapshot, otherwise the bracketed comma-separated objects. -/
def jsonMarshalChars : List LogEntry → List Char
  | [] => "[]".toList
  | e :: rest => '[' :: (marshalEntry e ++ (entryListTail rest ++ (']' :: [])))

def jsonMarshalLogs (logs : List LogEntry) : String :=
  (jsonMarshalChars logs).asString

/-! ## Spec-side strict JSON decoder for the exported document -/

/-- Consume an expected literal. -/
def parseLit : List Char → List Char → Option (List Char)
  | [], cs => some cs
  | _ :: _, [] => none
  | l :: ls, c :: cs => if c = l then parseLit ls cs else none

/-- Parse one entry object (brace, fields in the fixed key order, brace). -/
def parseEntry (cs : List Char) : Option (LogEntry × List Char) :=
  match cs with
  | '\x7b' :: cs0 =>
    (match parseLit litIdKey cs0 with
      | none => none
      | some cs1 =>
        match parseInt cs1 with
        | none => none
        | some (i, cs2) =>
          match parseLit litTs cs2 with
          | none => none
          | some cs3 =>
            match parseStringBody cs3 with
            | none => none
            | some (ts, cs4) =>
              match parseLit litFn cs4 with
              | none => none
              | some cs5 =>
                match parseStringBody cs5 with
                | none => none
                | some (fn, cs6) =>
                  match parseLit litIp cs6 with
                  | none => none
                  | some cs7 =>
                    match parseStringBody cs7 with
                    | none => none
                    | some (ip, cs8) =>
                      match parseLit litRq cs8 with
                      | none => none
                      | some cs9 =>
                        match parseStringBody cs9 with
                        | none => none
                        | some (rq, cs10) =>
                          match parseLit litRr cs10 with
                          | none => none
                          | some cs11 =>
                            match parseStringBody cs11 with
                            | none => none
                            | some (rr, cs12) =>
                              match cs12 with
                              | '\x7d' :: cs13 =>
                                some (⟨i, ts.asString, fn.asString,
                                  ip.asString, rq.asString, rr.asString⟩,
                                  cs13)
                              | _ => none)
  | _ => none

/-- Parse `,` entry ... up to the closing `]`; the fuel bounds the number of
remaining entries. -/
def parseMore : Nat → List Char → Option (List LogEntry × List Char)
  | fuel, cs =>
    match cs with
    | ']' :: rest => some ([], rest)
    | ',' :: rest =>
      (match fuel with
        | 0 => none
        | f + 1 =>
          match parseEntry rest with
          | none => none
          | some (e, cs2) =>
            match parseMore f cs2 with
            | none => none
            | some (es, cs3) => some (e :: es, cs3))
    | _ => none

/-- Parse the full exported JSON document as a list of entries. -/
def parseLogEntries (s : String) : Option (List LogEntry) :=
  match s.toList with
  | '[' :: rest =>
    (match rest with
      | ']' :: rest2 => if rest2 = [] then some [] else none
      | _ =>
        match parseEntry rest with
        | none => none
        | some (e, cs2) =>
          match parseMore cs2.length cs2 with
          | none => none
          | some (es, cs3) => if cs3 = [] then some (e :: es) else none)
  | _ => none

/-! ## Base64 (`base64.StdEncoding`, handleAdmin line 126) -/

/-- The standard base64 alphabet, as Go's `StdEncoding` indexes it. -/
def base64Table : List Char :=
  "ABCDEFGHIJKLMNOPQRSTUVWXYZabcdefghijklmnopqrstuvwxyz0123456789+/".toList

def b64Char (n : Nat) : Char := base64Table.getD n 'A'

/-- Spec-side inverse of the base64 alphabet. -/
def b64Val (c : Char) : Option Nat :=
  if 'A' ≤ c ∧ c ≤ 'Z' then some (c.toNat - 65)
  else if 'a' ≤ c ∧ c ≤ 'z' then some (c.toNat - 71)
  else if '0' ≤ c ∧ c ≤ '9' then some (c.toNat + 4)
  else if c = '+' then some 62
  else if c = '/' then some 63
  else none

/-- `base64.StdEncoding.EncodeToString`: three bytes into four alphabet
characters, with `=` padding for a 1- or 2-byte final group. -/
def base64Encode : List Nat → List Char
  | [] => []
  | [b] => [b64Char (b / 4), b64Char (b % 4 * 16), '=', '=']
  | [b, c] =>
    [b64Char (b / 4), b64Char (b % 4 * 16 + c / 16), b64Char (c % 16 * 4), '=']
  | b :: c :: d :: rest =>
    b64Char (b / 4) :: b64Char (b % 4 * 16 + c / 16) ::
      b64Char (c % 16 * 4 + d / 64) :: b64Char (d % 64) :: base64Encode rest

/-- Spec-side base64 decoder (standard alphabet, `=` padding). -/
def base64Decode : List Char → Option (List Nat)
  | [] => some []
  | c1 :: c2 :: c3 :: c4 :: rest =>
    (match b64Val c1, b64Val c2 with
      | some s1, some s2 =>
        if c3 = '=' then
          if c4 = '=' then
            if rest = [] then some [s1 * 4 + s2 / 16] else none
          else none
        else
          match b64Val c3 with
          | some s3 =>
            if c4 = '=' then
              if rest = [] then
                some [s1 * 4 + s2 / 16, s2 % 16 * 16 + s3 / 4]
              else none
            else
              match b64Val c4 with
              | some s4 =>
                (match base64Decode rest with
                  | none => none
                  | some bs =>
                    some ((s1 * 4 + s2 / 16) :: (s2 % 16 * 16 + s3 / 4) ::
                      (s3 % 4 * 64 + s4) :: bs))
              | none => none
          | none => none
      | _, _ => none)
  | _ => none

/-! ## The bulk-export pipeline of `handleAdmin` (lines 125-126) -/

/-- The UTF-8 bytes of a string (what Go's `[]byte(s)` yields). -/
def utf8Bytes (s : String) : List Nat :=
  s.toUTF8.toList.map (fun b => b.toNat)

/-- `allLogsJson, _ := json.Marshal(logsCopy)` (line 125). -/
def allLogsJson (logs : List LogEntry) : String := jsonMarshalLogs logs

/-- `allLogsBase64 := base64.StdEncoding.EncodeToString(allLogsJson)`
(line 126). -/
def allLogsBase64 (logs : List LogEntry) : List Char :=
  base64Encode (utf8Bytes (allLogsJson logs))

/-! ## Theorems -/

theorem insertLog_nonneg (m : Int) (hm : 0 ≤ m) (e : LogEntry)
    (logs : List LogEntry) :
    insertLog m e logs = some ((e :: logs).take m.toNat) := by
  unfold insertLog
  by_cases h : ((e :: logs).length : Int) > m
  · simp only [h, if_true]
    have : ¬ m < 0 := by omega
    simp [this]
  · simp only [h, if_false]
    have hlen : (e :: logs).length ≤ m.toNat := by omega
    simp [List.take_of_length_le hlen]

theorem insertAll_nonneg (m : Int) (hm : 0 ≤ m) :
    ∀ (entries : List LogEntry) (logs : List LogEntry),
    insertAll m entries logs =
      some (entries.foldl (fun acc e => (e :: acc).take m.toNat) logs)
  | [], logs => rfl
  | e :: rest, logs => by
    rw [insertAll, insertLog_nonneg m hm, List.foldl_cons]
    exact insertAll_nonneg m hm rest ((e :: logs).take m.toNat)

theorem take_append_take (A B : List LogEntry) (m : Nat) :
    (A ++ B.take m).take m = (A ++ B).take m := by
  rw [List.take_append_eq_append_take, List.take_append_eq_append_take,
    List.take_take]
  have : min (m - A.length) m = m - A.length := by omega
  rw [this]

theorem foldl_take_step (m : Nat) :
    ∀ (entries logs : List LogEntry), logs.length ≤ m →
    entries.foldl (fun acc e => (e :: acc).take m) logs =
      (entries.reverse ++ logs).take m
  | [], logs, h => by
    simp [List.take_of_length_le h]
  | e :: rest, logs, h => by
    rw [List.foldl_cons, foldl_take_step m rest ((e :: logs).take m)
      (by simp [List.length_take])]
    rw [take_append_take, List.reverse_cons, List.append_assoc]
    rfl

/-- Claim C1: for every sequence of `N` inserts with `N > maxLogs > 0`
(from any prior store contents), the store afterwards holds exactly
`maxLogs` entries, namely the `maxLogs` most recently inserted ones ordered
newest-first (`entries.reverse.take maxLogs`); each insert prepends and then
truncates from the tail to `maxLogs` entries. -/
theorem c1_retention (m : Int) (entries logs : List LogEntry)
    (hm : 0 < m) (hN : (entries.length : Int) > m) :
    insertAll m entries logs = some (entries.reverse.take m.toNat) ∧
      (entries.reverse.take m.toNat).length = m.toNat := by
  have hm0 : 0 ≤ m := le_of_lt hm
  constructor
  · rw [insertAll_nonneg m hm0]
    cases entries with
    | nil => simp at hN; omega
    | cons e rest =>
      rw [List.foldl_cons,
        foldl_take_step m.toNat rest ((e :: logs).take m.toNat)
          (by simp [List.length_take])]
      rw [take_append_take]
      have hsplit : (e :: rest).reverse ++ logs =
          rest.reverse ++ (e :: logs) := by
        rw [List.reverse_cons, List.append_assoc]; rfl
      simp only [List.length_cons] at hN
      rw [← hsplit, List.take_append_of_le_length]
      simp only [List.length_reverse, List.length_cons]
      omega
  · rw [List.length_take, List.length_reverse]
    omega

theorem c1_retention_witness :
    insertAll 2 [entryA, entryB, entryC] [] =
      some ([entryA, entryB, entryC].reverse.take (2 : Int).toNat) ∧
      ([entryA, entryB, entryC].reverse.take (2 : Int).toNat).length =
        (2 : Int).toNat :=
  c1_retention 2 [entryA, entryB, entryC] [] (by decide) (by decide)

/-- Claim C10: capacity-bound edge cases of the insert.  With `maxLogs = 0`
every insert leaves the store empty (the fresh entry is truncated away
immediately); with `maxLogs < 0` the truncation is the Go slice expression
`accessLogs[:maxLogs]` with a negative bound and panics (`none`); insert is
panic-free exactly under the precondition `maxLogs ≥ 0`. -/
theorem c10_capacity_edge (m : Int) (e : LogEntry) (logs : List LogEntry) :
    insertLog 0 e logs = some [] ∧
      (m < 0 → insertLog m e logs = none) ∧
      ((insertLog m e logs).isSome ↔ 0 ≤ m) := by
  refine ⟨?_, ?_, ?_⟩
  · rw [insertLog_nonneg 0 le_rfl]
    simp
  · intro hneg
    simp only [insertLog]
    split_ifs with h1
    · rfl
    · omega
  · constructor
    · intro hsome
      by_contra hneg
      push_neg at hneg
      simp only [insertLog] at hsome
      split_ifs at hsome with h1
      · simp at hsome
      · omega
    · intro hnn
      rw [insertLog_nonneg m hnn]
      rfl

theorem c10_capacity_edge_witness :
    insertLog (-1) entryA [] = none ∧ insertLog 0 entryA [] = some [] :=
  ⟨(c10_capacity_edge (-1) entryA []).2.1 (by decide),
    (c10_capacity_edge (-1) entryA []).1⟩

theorem getD_append_of_lt (l1 l2 : List (List LogEntry)) (i : Nat)
    (h : i < l1.length) : (l1 ++ l2).getD i [] = l1.getD i [] := by
  induction l1 generalizing i with
  | nil => simp at h
  | cons a l ih =>
    cases i with
    | zero => rfl
    | succ j =>
      simp only [List.cons_append, List.getD_cons_succ]
      exact ih j (by simp at h; omega)

theorem getD_snoc_length (l : List (List LogEntry)) (x : List LogEntry) :
    (l ++ [x]).getD l.length [] = x := by
  induction l with
  | nil => rfl
  | cons a t ih => simp only [List.cons_append, List.length_cons,
      List.getD_cons_succ]; exact ih

/-- A snapshot's backing array sits below any later allocation, so its view
is stable under any later heap growth. -/
theorem sliceView_heapAlloc (h : SliceHeap) (c : List LogEntry) (s : SliceRef)
    (hs : s.arrId < h.arrays.length) :
    sliceView (heapAlloc h c).1 s = sliceView h s := by
  simp only [sliceView, heapAlloc]
  rw [getD_append_of_lt h.arrays [c] s.arrId hs]

/-- Claim C2: `Snapshot()` returns an independent defensive copy: the
returned snapshot reference denotes the store contents at snapshot time, and
applying any subsequent `Insert` or `Clear` to the store leaves the
snapshot's denotation unchanged (no aliasing with live state). -/
theorem c2_snapshot_defensive (st : ServerState) (e : LogEntry) (m : Int) :
    sliceView (storeSnapshot st).1.heap (storeSnapshot st).2 =
        sliceView st.heap st.accessLogs ∧
      (∀ st2, storeInsert m e (storeSnapshot st).1 = some st2 →
        sliceView st2.heap (storeSnapshot st).2 =
          sliceView (storeSnapshot st).1.heap (storeSnapshot st).2) ∧
      sliceView (storeClear (storeSnapshot st).1).heap (storeSnapshot st).2 =
        sliceView (storeSnapshot st).1.heap (storeSnapshot st).2 := by
  have hsnap : sliceView (storeSnapshot st).1.heap (storeSnapshot st).2 =
      sliceView st.heap st.accessLogs := by
    simp only [storeSnapshot, sliceView, heapAlloc]
    rw [getD_snoc_length]
    exact List.take_length _
  have hid : ((storeSnapshot st).2).arrId <
      ((storeSnapshot st).1.heap).arrays.length := by
    simp [storeSnapshot, heapAlloc]
  refine ⟨hsnap, ?_, ?_⟩
  · intro st2 hins
    simp only [storeInsert] at hins
    split_ifs at hins with h1 h2
    · injection hins with hst2
      rw [← hst2]
      exact sliceView_heapAlloc _ _ _ hid
    · injection hins with hst2
      rw [← hst2]
      exact sliceView_heapAlloc _ _ _ hid
  · exact sliceView_heapAlloc _ _ _ hid

theorem c2_snapshot_defensive_witness :
    sliceView (((storeInsert 50 entryC (storeSnapshot stateW).1).getD
        (storeSnapshot stateW).1).heap) (storeSnapshot stateW).2 =
      sliceView (storeSnapshot stateW).1.heap (storeSnapshot stateW).2 := by
  have h := (c2_snapshot_defensive stateW entryC 50).2.1
  exact h ((storeInsert 50 entryC (storeSnapshot stateW).1).getD
    (storeSnapshot stateW).1) (by decide)

/-- Claim C9: `Clear()` followed immediately by `Snapshot()` yields the empty
sequence from any prior state; the live store is empty after a clear; the
acknowledgement is `"ok"`; and clearing an already-empty (just-cleared) store
succeeds identically, returning the same acknowledgement and again an empty
store. -/
theorem c9_clear_idempotent (st : ServerState) :
    sliceView (storeSnapshot (handleClear st).1).1.heap
        (storeSnapshot (handleClear st).1).2 = [] ∧
      sliceView (handleClear st).1.heap (handleClear st).1.accessLogs = [] ∧
      (handleClear st).2 = "ok" ∧
      (handleClear (handleClear st).1).2 = (handleClear st).2 ∧
      sliceView (handleClear (handleClear st).1).1.heap
        (handleClear (handleClear st).1).1.accessLogs = [] := by
  refine ⟨?_, ?_, rfl, rfl, ?_⟩
  · simp [storeSnapshot, sliceView, handleClear, storeClear, heapAlloc]
  · simp [sliceView, handleClear, storeClear, heapAlloc]
  · simp [sliceView, handleClear, storeClear, heapAlloc]

/-- Claim C4: the capture handler's path decision.  `/` answers `200`
`"Active"` and records exactly one new Capture Entry (store effect = one
insert of that entry); `/log` answers `200` `"Logged"` and records exactly
one new entry; `/favicon.ico` answers `404` with no new entry; every other
path answers `404` with the short body `"404 Not Found"` and no new
entry. -/
theorem c4_path_decision (m : Int) (t : GoTime) (req : GoRequest)
    (logs : List LogEntry) :
    (req.path = "/" →
      (handleAll m t req logs).status = 200 ∧
      (handleAll m t req logs).respBody = "Active" ∧
      ∃ e, (handleAll m t req logs).newEntry = some e ∧
        (handleAll m t req logs).logsAfter = insertLog m e logs) ∧
    (req.path = "/log" →
      (handleAll m t req logs).status = 200 ∧
      (handleAll m t req logs).respBody = "Logged" ∧
      ∃ e, (handleAll m t req logs).newEntry = some e ∧
        (handleAll m t req logs).logsAfter = insertLog m e logs) ∧
    (req.path = "/favicon.ico" →
      (handleAll m t req logs).status = 404 ∧
      (handleAll m t req logs).newEntry = none ∧
      (handleAll m t req logs).logsAfter = some logs) ∧
    (req.path ≠ "/" → req.path ≠ "/log" → req.path ≠ "/favicon.ico" →
      (handleAll m t req logs).status = 404 ∧
      (handleAll m t req logs).respBody = "404 Not Found" ∧
      (handleAll m t req logs).newEntry = none ∧
      (handleAll m t req logs).logsAfter = some logs) := by
  refine ⟨?_, ?_, ?_, ?_⟩
  · intro h
    simp only [handleAll, h]
    exact ⟨rfl, rfl, _, rfl, rfl⟩
  · intro h
    simp only [handleAll, h]
    exact ⟨rfl, rfl, _, rfl, rfl⟩
  · intro h
    simp only [handleAll, h]
    exact ⟨rfl, rfl, rfl⟩
  · intro h1 h2 h3
    simp only [handleAll, h1, h2, h3]
    refine ⟨?_, ?_, ?_, ?_⟩ <;> simp [h1, h2, h3]

theorem c4_path_decision_witness :
    (handleAll 50 tW reqXff []).status = 200 ∧
      (handleAll 50 tW reqXff []).respBody = "Active" ∧
      ∃ e, (handleAll 50 tW reqXff []).newEntry = some e ∧
        (handleAll 50 tW reqXff []).logsAfter = insertLog 50 e [] :=
  (c4_path_decision 50 tW reqXff []).1 rfl

/-- Claim C7: shape of the Raw Formatter's response text.  It begins with
the status line `HTTP/1.1 200 OK`, followed by a `Date` header holding the
HTTP-date (RFC 1123, UTC) rendering of the capture instant, a
`Content-Type` header, a `Content-Length` header whose value is the byte
length of the response body, a blank line, and the response body. -/
theorem c7_raw_response_format (t : GoTime) (body : String) :
    (∃ rest, rawResponse t body = "HTTP/1.1 200 OK\n" ++ rest) ∧
    rawResponse t body =
      "HTTP/1.1 200 OK" ++ "\n" ++ "Date: " ++ httpDate t ++ "\n" ++
        "Content-Type: text/plain; charset=utf-8" ++ "\n" ++
        "Content-Length: " ++ natReprStr (goLen body) ++ "\n" ++ "\n" ++
        body := by
  have hsplit : rawResponse t body =
      "HTTP/1.1 200 OK" ++ "\n" ++ "Date: " ++ httpDate t ++ "\n" ++
        "Content-Type: text/plain; charset=utf-8" ++ "\n" ++
        "Content-Length: " ++ natReprStr (goLen body) ++ "\n" ++ "\n" ++
        body := by
    unfold rawResponse
    rw [show ("HTTP/1.1 200 OK\nDate: " : String) =
      "HTTP/1.1 200 OK" ++ "\n" ++ "Date: " from rfl]
    rw [show ("\nContent-Type: text/plain; charset=utf-8\nContent-Length: " :
        String) =
      "\n" ++ "Content-Type: text/plain; charset=utf-8" ++ "\n" ++
        "Content-Length: " from rfl]
    rw [show ("\n\n" : String) = "\n" ++ "\n" from rfl]
    simp only [String.append_assoc]
  refine ⟨⟨"Date: " ++ httpDate t ++ "\n" ++
    "Content-Type: text/plain; charset=utf-8" ++ "\n" ++
    "Content-Length: " ++ natReprStr (goLen body) ++ "\n" ++ "\n" ++ body,
    ?_⟩, hsplit⟩
  rw [hsplit]
  simp only [String.append_assoc]
  rfl

/-- Any Capture Entry `handleAll` records carries the fields built at lines
97-105, in particular the client IP resolved by the precedence rule of
lines 75-81. -/
theorem handleAll_newEntry_fields (m : Int) (t : GoTime) (req : GoRequest)
    (logs : List LogEntry) :
    (handleAll m t req logs).newEntry = none ∨
      (handleAll m t req logs).newEntry = some
        { ID := t.unixNano, Timestamp := timestampStr t,
          FilenameTS := filenameTsStr t,
          IP := if req.xForwardedFor ≠ "" then
              goTrimSpace ((goSplit req.xForwardedFor ',').headD "")
            else goHost req.remoteAddr,
          RawRequest := (dumpRequest req).getD "",
          RawResponse :=
            rawResponse t (if req.path = "/log" then "Logged" else "Active") } := by
  simp only [handleAll]
  split_ifs <;> simp

/-- Claim C8: sourceIP precedence.  When the recorded request carries a
non-empty `X-Forwarded-For` header, the Capture Entry's `IP` is the
header's first comma-separated value with surrounding whitespace trimmed;
otherwise it is the host part of the transport-level peer address (when
that address is a well-formed `host:port`). -/
theorem c8_source_ip (m : Int) (t : GoTime) (req : GoRequest)
    (logs : List LogEntry) (e : LogEntry)
    (h : (handleAll m t req logs).newEntry = some e) :
    (req.xForwardedFor ≠ "" →
      e.IP = goTrimSpace ((goSplit req.xForwardedFor ',').headD "")) ∧
    (req.xForwardedFor = "" → ∀ hp : String × String,
      splitHostPort req.remoteAddr = some hp → e.IP = hp.1) := by
  rcases handleAll_newEntry_fields m t req logs with hn | hs
  · rw [h] at hn
    exact absurd hn (by simp)
  · rw [h] at hs
    simp only [Option.some.injEq] at hs
    constructor
    · intro hx
      rw [hs]
      simp [hx]
    · intro hx hp hsp
      rw [hs]
      simp [hx, goHost, hsp]

theorem c8_source_ip_witness :
    entryW.IP = goTrimSpace ((goSplit "1.2.3.4, 5.6.7.8" ',').headD "") :=
  (c8_source_ip 50 tW reqXff [] entryW (by decide)).1 (by decide)

/-- Claim C6 as stated is false: on a body read failure `DumpRequest`
returns no dump at all, so the recorded raw request text is empty rather
than the request text with an empty body — the request line and headers are
not preserved. -/
theorem c6_counterexample : ¬ c6Preserved 50 tW reqFail [] := by decide

/-- Claim C6 (amended): for every recordable request whose body read fails,
the whole dump is discarded — a Capture Entry is still created and inserted
but its raw request text is empty — and the real response is still sent
(`200` with the path's body). -/
theorem c6_read_failure (m : Int) (t : GoTime) (req : GoRequest)
    (logs : List LogEntry) (hfail : req.bodyReadErr = true)
    (hpath : req.path = "/" ∨ req.path = "/log") :
    (handleAll m t req logs).newEntry.map LogEntry.RawRequest = some "" ∧
    (∀ e, (handleAll m t req logs).newEntry = some e →
      (handleAll m t req logs).logsAfter = insertLog m e logs) ∧
    (handleAll m t req logs).status = 200 ∧
    (handleAll m t req logs).respBody =
      (if req.path = "/log" then "Logged" else "Active") := by
  rcases hpath with h | h <;>
    simp [handleAll, h, dumpRequest, hfail]

theorem c6_read_failure_witness :
    (handleAll 50 tW reqFail []).newEntry.map LogEntry.RawRequest =
        some "" ∧
      (handleAll 50 tW reqFail []).status = 200 ∧
      (handleAll 50 tW reqFail []).respBody =
        (if reqFail.path = "/log" then "Logged" else "Active") :=
  ⟨(c6_read_failure 50 tW reqFail [] rfl (Or.inl rfl)).1,
    (c6_read_failure 50 tW reqFail [] rfl (Or.inl rfl)).2.2.1,
    (c6_read_failure 50 tW reqFail [] rfl (Or.inl rfl)).2.2.2⟩

/-- `handleAll` either leaves the store untouched or inserts exactly one
entry whose `ID` is the capture instant's `UnixNano` reading. -/
theorem handleAll_logsAfter (m : Int) (t : GoTime) (r : GoRequest)
    (logs : List LogEntry) :
    (handleAll m t r logs).logsAfter = some logs ∨
      ∃ e : LogEntry, e.ID = t.unixNano ∧
        (handleAll m t r logs).logsAfter = insertLog m e logs := by
  simp only [handleAll]
  split_ifs <;> first
    | (left; rfl)
    | (right; exact ⟨_, rfl, rfl⟩)

theorem c3_aux (m : Int) (hm : 0 ≤ m) :
    ∀ (inputs : List (GoTime × GoRequest)) (logs : List LogEntry),
    ((inputs.map fun p => p.1.unixNano).Pairwise (· < ·)) →
    logs.Pairwise (fun a b => b.ID < a.ID) →
    (∀ x ∈ logs, ∀ p ∈ inputs, x.ID < p.1.unixNano) →
    ∃ out, runHandleAll m inputs logs = some out ∧
      out.Pairwise (fun a b => b.ID < a.ID)
  | [], logs, _, hp, _ => ⟨logs, rfl, hp⟩
  | (t, r) :: rest, logs, hmono, hp, hb => by
    rw [List.map_cons, List.pairwise_cons] at hmono
    obtain ⟨hhead, htail⟩ := hmono
    rcases handleAll_logsAfter m t r logs with hcase | ⟨e, heid, hcase⟩
    · obtain ⟨out, hrun, hpw⟩ := c3_aux m hm rest logs htail hp
        (fun x hx p hpmem => hb x hx p (List.mem_cons_of_mem _ hpmem))
      exact ⟨out, by rw [runHandleAll, hcase]; exact hrun, hpw⟩
    · rw [insertLog_nonneg m hm] at hcase
      have hpw2 : ((e :: logs).take m.toNat).Pairwise
          (fun a b => b.ID < a.ID) := by
        refine List.Pairwise.sublist (List.take_sublist _ _) ?_
        refine List.pairwise_cons.mpr ⟨?_, hp⟩
        intro x hx
        rw [heid]
        exact hb x hx (t, r) (List.mem_cons_self _ _)
      have hb2 : ∀ x ∈ (e :: logs).take m.toNat, ∀ p ∈ rest,
          x.ID < p.1.unixNano := by
        intro x hx p hpmem
        rcases List.mem_cons.mp (List.mem_of_mem_take hx) with hxe | hxl
        · rw [hxe, heid]
          exact hhead _ (List.mem_map_of_mem _ hpmem)
        · exact hb x hxl p (List.mem_cons_of_mem _ hpmem)
      obtain ⟨out, hrun, hpw⟩ :=
        c3_aux m hm rest ((e :: logs).take m.toNat) htail hpw2 hb2
      exact ⟨out, by rw [runHandleAll, hcase]; exact hrun, hpw⟩

/-- Claim C3: `id` values are strictly increasing in insertion order.  In
any run of the handler whose capture instants carry strictly increasing
`UnixNano` readings (the id source, `time.Now().UnixNano()`), the resulting
store never panics and is strictly decreasing in `ID` from the head: every
later-inserted (more recent, closer to the head) entry has a strictly
greater id than every earlier-inserted one. -/
theorem c3_ids_increasing (m : Int) (inputs : List (GoTime × GoRequest))
    (hm : 0 ≤ m)
    (hmono : (inputs.map fun p => p.1.unixNano).Pairwise (· < ·)) :
    ∃ out, runHandleAll m inputs [] = some out ∧
      out.Pairwise (fun a b => b.ID < a.ID) :=
  c3_aux m hm inputs [] hmono List.Pairwise.nil (by simp)

theorem c3_ids_increasing_witness :
    ∃ out, runHandleAll 50 [(tW, reqXff), (tW2, reqXff)] [] = some out ∧
      out.Pairwise (fun a b => b.ID < a.ID) :=
  c3_ids_increasing 50 [(tW, reqXff), (tW2, reqXff)] (by decide) (by decide)

theorem psb_close (rest : List Char) :
    parseStringBody ('"' :: rest) = some ([], rest) := by
  rw [parseStringBody.eq_def]
  rfl

theorem psb_esc_quote (cs : List Char) :
    parseStringBody ('\\' :: '"' :: cs) =
      (parseStringBody cs).map fun p => ('"' :: p.1, p.2) := by
  rw [parseStringBody.eq_def]
  rfl

theorem psb_esc_backslash (cs : List Char) :
    parseStringBody ('\\' :: '\\' :: cs) =
      (parseStringBody cs).map fun p => ('\\' :: p.1, p.2) := by
  rw [parseStringBody.eq_def]
  rfl

theorem psb_esc_n (cs : List Char) :
    parseStringBody ('\\' :: 'n' :: cs) =
      (parseStringBody cs).map fun p => ('\n' :: p.1, p.2) := by
  rw [parseStringBody.eq_def]
  rfl

theorem psb_esc_r (cs : List Char) :
    parseStringBody ('\\' :: 'r' :: cs) =
      (parseStringBody cs).map fun p => ('\r' :: p.1, p.2) := by
  rw [parseStringBody.eq_def]
  rfl

theorem psb_esc_t (cs : List Char) :
    parseStringBody ('\\' :: 't' :: cs) =
      (parseStringBody cs).map fun p => ('\t' :: p.1, p.2) := by
  rw [parseStringBody.eq_def]
  rfl

theorem psb_esc_u (c1 c2 c3 c4 : Char) (cs : List Char) (a1 a2 a3 a4 : Nat)
    (h1 : hexVal c1 = some a1) (h2 : hexVal c2 = some a2)
    (h3 : hexVal c3 = some a3) (h4 : hexVal c4 = some a4) :
    parseStringBody ('\\' :: 'u' :: c1 :: c2 :: c3 :: c4 :: cs) =
      (parseStringBody cs).map fun p =>
        (Char.ofNat (((a1 * 16 + a2) * 16 + a3) * 16 + a4) :: p.1, p.2) := by
  have hstep : parseStringBody ('\\' :: 'u' :: c1 :: c2 :: c3 :: c4 :: cs) =
      (match hexVal c1, hexVal c2, hexVal c3, hexVal c4 with
        | some a1, some a2, some a3, some a4 =>
          (parseStringBody cs).map fun p =>
            (Char.ofNat (((a1 * 16 + a2) * 16 + a3) * 16 + a4) :: p.1, p.2)
        | _, _, _, _ => none) := by
    rw [parseStringBody.eq_def]
    rfl
  rw [hstep, h1, h2, h3, h4]

theorem psb_plain (c : Char) (cs : List Char) (h1 : ¬ c = '"')
    (h2 : ¬ c = '\\') :
    parseStringBody (c :: cs) =
      (parseStringBody cs).map fun p => (c :: p.1, p.2) := by
  rw [parseStringBody.eq_def]
  simp [h1, h2]

theorem hexVal_hexLowerChar (d : Nat) (h : d < 16) :
    hexVal (hexLowerChar d) = some d := by
  revert h
  revert d
  decide

set_option maxHeartbeats 1000000 in
/-- Decoding the escape sequence of any character recovers it. -/
theorem parseStringBody_escString (s : List Char) (rest : List Char) :
    parseStringBody (escString s ++ '"' :: rest) = some (s, rest) := by
  induction s generalizing rest with
  | nil => rw [escString, List.nil_append, psb_close]
  | cons c cs ih =>
    rw [escString, List.append_assoc]
    unfold escChar
    split_ifs with h1 h2 h3 h4 h5 h6 h7 h8 h9 h10 h11
    · rw [show ((['\\', '"'] : List Char) ++ (escString cs ++ '"' :: rest)) =
        '\\' :: '"' :: (escString cs ++ '"' :: rest) from rfl]
      rw [psb_esc_quote, ih, h1]
      rfl
    · rw [show ((['\\', '\\'] : List Char) ++ (escString cs ++ '"' :: rest)) =
        '\\' :: '\\' :: (escString cs ++ '"' :: rest) from rfl]
      rw [psb_esc_backslash, ih, h2]
      rfl
    · rw [show ((['\\', 'n'] : List Char) ++ (escString cs ++ '"' :: rest)) =
        '\\' :: 'n' :: (escString cs ++ '"' :: rest) from rfl]
      rw [psb_esc_n, ih, h3]
      rfl
    · rw [show ((['\\', 'r'] : List Char) ++ (escString cs ++ '"' :: rest)) =
        '\\' :: 'r' :: (escString cs ++ '"' :: rest) from rfl]
      rw [psb_esc_r, ih, h4]
      rfl
    · rw [show ((['\\', 't'] : List Char) ++ (escString cs ++ '"' :: rest)) =
        '\\' :: 't' :: (escString cs ++ '"' :: rest) from rfl]
      rw [psb_esc_t, ih, h5]
      rfl
    · rw [show ((['\\', 'u', '0', '0', hexLowerChar (c.toNat / 16),
          hexLowerChar (c.toNat % 16)] : List Char) ++
          (escString cs ++ '"' :: rest)) =
        '\\' :: 'u' :: '0' :: '0' :: hexLowerChar (c.toNat / 16) ::
          hexLowerChar (c.toNat % 16) :: (escString cs ++ '"' :: rest) from
        rfl]
      rw [psb_esc_u '0' '0' (hexLowerChar (c.toNat / 16))
        (hexLowerChar (c.toNat % 16)) _ 0 0 (c.toNat / 16) (c.toNat % 16)
        (by decide) (by decide)
        (hexVal_hexLowerChar _ (by omega))
        (hexVal_hexLowerChar _ (by omega))]
      rw [ih]
      rw [show ((0 * 16 + 0) * 16 + c.toNat / 16) * 16 + c.toNat % 16 =
        c.toNat from by omega]
      rw [Char.ofNat_toNat]
      rfl
    · rw [show ((['\\', 'u', '0', '0', '3', 'c'] : List Char) ++
          (escString cs ++ '"' :: rest)) =
        '\\' :: 'u' :: '0' :: '0' :: '3' :: 'c' ::
          (escString cs ++ '"' :: rest) from rfl]
      have hstep : parseStringBody ('\\' :: 'u' :: '0' :: '0' :: '3' :: 'c' ::
          (escString cs ++ '"' :: rest)) =
          (parseStringBody (escString cs ++ '"' :: rest)).map fun p =>
            ('<' :: p.1, p.2) := by
        rw [parseStringBody.eq_def]
        rfl
      rw [hstep, ih, h7]
      rfl
    · rw [show ((['\\', 'u', '0', '0', '3', 'e'] : List Char) ++
          (escString cs ++ '"' :: rest)) =
        '\\' :: 'u' :: '0' :: '0' :: '3' :: 'e' ::
          (escString cs ++ '"' :: rest) from rfl]
      have hstep : parseStringBody ('\\' :: 'u' :: '0' :: '0' :: '3' :: 'e' ::
          (escString cs ++ '"' :: rest)) =
          (parseStringBody (escString cs ++ '"' :: rest)).map fun p =>
            ('>' :: p.1, p.2) := by
        rw [parseStringBody.eq_def]
        rfl
      rw [hstep, ih, h8]
      rfl
    · rw [show ((['\\', 'u', '0', '0', '2', '6'] : List Char) ++
          (escString cs ++ '"' :: rest)) =
        '\\' :: 'u' :: '0' :: '0' :: '2' :: '6' ::
          (escString cs ++ '"' :: rest) from rfl]
      have hstep : parseStringBody ('\\' :: 'u' :: '0' :: '0' :: '2' :: '6' ::
          (escString cs ++ '"' :: rest)) =
          (parseStringBody (escString cs ++ '"' :: rest)).map fun p =>
            ('&' :: p.1, p.2) := by
        rw [parseStringBody.eq_def]
        rfl
      rw [hstep, ih, h9]
      rfl
    · rw [show ((['\\', 'u', '2', '0', '2', '8'] : List Char) ++
          (escString cs ++ '"' :: rest)) =
        '\\' :: 'u' :: '2' :: '0' :: '2' :: '8' ::
          (escString cs ++ '"' :: rest) from rfl]
      have hstep : parseStringBody ('\\' :: 'u' :: '2' :: '0' :: '2' :: '8' ::
          (escString cs ++ '"' :: rest)) =
          (parseStringBody (escString cs ++ '"' :: rest)).map fun p =>
            (Char.ofNat 0x2028 :: p.1, p.2) := by
        rw [parseStringBody.eq_def]
        rfl
      rw [hstep, ih]
      rw [show c = Char.ofNat 0x2028 from by
        rw [← Char.ofNat_toNat c, h10]]
      rfl
    · rw [show ((['\\', 'u', '2', '0', '2', '9'] : List Char) ++
          (escString cs ++ '"' :: rest)) =
        '\\' :: 'u' :: '2' :: '0' :: '2' :: '9' ::
          (escString cs ++ '"' :: rest) from rfl]
      have hstep : parseStringBody ('\\' :: 'u' :: '2' :: '0' :: '2' :: '9' ::
          (escString cs ++ '"' :: rest)) =
          (parseStringBody (escString cs ++ '"' :: rest)).map fun p =>
            (Char.ofNat 0x2029 :: p.1, p.2) := by
        rw [parseStringBody.eq_def]
        rfl
      rw [hstep, ih]
      rw [show c = Char.ofNat 0x2029 from by
        rw [← Char.ofNat_toNat c, h11]]
      rfl
    · rw [show (([c] : List Char) ++ (escString cs ++ '"' :: rest)) =
        c :: (escString cs ++ '"' :: rest) from rfl]
      rw [psb_plain c _ h1 h2, ih]
      rfl

theorem digitChar_facts (d : Nat) (h : d < 10) :
    (Nat.digitChar d).isDigit = true ∧ (Nat.digitChar d).toNat = 48 + d := by
  revert h
  revert d
  decide

theorem natDigitsRev_digits :
    ∀ fuel n : Nat, ∀ c ∈ natDigitsRev fuel n, c.isDigit = true
  | 0, n => by simp [natDigitsRev]
  | fuel + 1, n => by
    rw [natDigitsRev]
    split_ifs with h
    · simp
    · intro c hc
      rcases List.mem_cons.mp hc with h1 | h2
      · rw [h1]
        exact (digitChar_facts _ (Nat.mod_lt _ (by omega))).1
      · exact natDigitsRev_digits fuel (n / 10) c h2

theorem valLE_natDigitsRev :
    ∀ fuel n : Nat, n ≤ fuel → valLE (natDigitsRev fuel n) = n
  | 0, n, h => by
    rw [natDigitsRev, valLE]
    omega
  | fuel + 1, n, h => by
    rw [natDigitsRev]
    split_ifs with h0
    · rw [valLE]
      omega
    · rw [valLE, valLE_natDigitsRev fuel (n / 10) (by omega),
        (digitChar_facts (n % 10) (by omega)).2]
      omega

theorem valBE_reverse : ∀ l : List Char, valBE l.reverse = valLE l
  | [] => rfl
  | c :: cs => by
    rw [List.reverse_cons, valBE, List.foldl_append, List.foldl_cons,
      List.foldl_nil, valLE, ← valBE, valBE_reverse cs]
    omega

theorem valBE_natRepr (n : Nat) : valBE (natRepr n) = n := by
  unfold natRepr
  split_ifs with h
  · rw [h]
    rfl
  · rw [valBE_reverse]
    exact valLE_natDigitsRev n n le_rfl

theorem natRepr_ne_nil (n : Nat) : natRepr n ≠ [] := by
  unfold natRepr
  split_ifs with h
  · simp
  · cases n with
    | zero => exact absurd rfl h
    | succ f =>
      rw [natDigitsRev]
      simp

theorem natRepr_digits (n : Nat) : ∀ c ∈ natRepr n, c.isDigit = true := by
  unfold natRepr
  split_ifs with h
  · intro c hc
    simp at hc
    rw [hc]
    rfl
  · intro c hc
    rw [List.mem_reverse] at hc
    exact natDigitsRev_digits n n c hc

theorem span_digits (p : Char → Bool) :
    ∀ (A B : List Char), (∀ c ∈ A, p c = true) →
    (match B with | [] => True | c :: _ => p c = false) →
    (A ++ B).takeWhile p = A ∧ (A ++ B).dropWhile p = B
  | [], B, _, hB => by
    cases B with
    | nil => exact ⟨rfl, rfl⟩
    | cons c B' =>
      rw [List.nil_append, List.takeWhile_cons, List.dropWhile_cons]
      simp only at hB
      rw [hB]
      exact ⟨rfl, rfl⟩
  | a :: A', B, hA, hB => by
    have ha : p a = true := hA a (List.mem_cons_self _ _)
    have ih := span_digits p A' B (fun c hc => hA c (List.mem_cons_of_mem _ hc)) hB
    rw [List.cons_append, List.takeWhile_cons, List.dropWhile_cons, ha]
    simp only [if_true]
    exact ⟨by rw [ih.1], by rw [ih.2]⟩

theorem parseNat_natRepr (n : Nat) (rest : List Char)
    (hrest : headNotDigit rest) :
    parseNat (natRepr n ++ rest) = some (n, rest) := by
  have hspan := span_digits Char.isDigit (natRepr n) rest (natRepr_digits n)
    (by cases rest with
      | nil => trivial
      | cons c r => exact hrest)
  rw [parseNat]
  simp only [hspan.1, hspan.2]
  have hne : (natRepr n).isEmpty = false := by
    cases hr : natRepr n with
    | nil => exact absurd hr (natRepr_ne_nil n)
    | cons c cs => rfl
  rw [hne]
  simp only [Bool.false_eq_true, if_false, valBE_natRepr]

theorem parseInt_neg (cs : List Char) :
    parseInt ('-' :: cs) = (parseNat cs).map fun p => (-(p.1 : Int), p.2) := by
  rw [parseInt.eq_def]
  rfl

theorem parseInt_nondash (c : Char) (cs : List Char) (h : ¬ c = '-') :
    parseInt (c :: cs) =
      (parseNat (c :: cs)).map fun p => ((p.1 : Int), p.2) := by
  rw [parseInt.eq_def]
  simp [h]

theorem parseInt_intRepr (i : Int) (rest : List Char)
    (hrest : headNotDigit rest) :
    parseInt (intRepr i ++ rest) = some (i, rest) := by
  unfold intRepr
  split_ifs with h
  · rw [List.cons_append, parseInt_neg, parseNat_natRepr _ _ hrest,
      Option.map_some']
    have hi : -((i.natAbs : Nat) : Int) = i := by omega
    rw [hi]
  · obtain ⟨d, ds, hA⟩ := List.exists_cons_of_ne_nil (natRepr_ne_nil i.toNat)
    have hd : d.isDigit = true := natRepr_digits i.toNat d
      (by rw [hA]; exact List.mem_cons_self _ _)
    have hdm : ¬ d = '-' := by
      intro hdm
      rw [hdm] at hd
      exact absurd hd (by decide)
    rw [hA, List.cons_append, parseInt_nondash d _ hdm, ← List.cons_append,
      ← hA, parseNat_natRepr _ _ hrest, Option.map_some']
    have hi : ((i.toNat : Nat) : Int) = i := by omega
    rw [hi]

theorem parseLit_append : ∀ (lit rest : List Char),
    parseLit lit (lit ++ rest) = some rest
  | [], _ => rfl
  | l :: ls, rest => by
    rw [List.cons_append]
    have hstep : parseLit (l :: ls) (l :: (ls ++ rest)) =
        if l = l then parseLit ls (ls ++ rest) else none := by
      rw [parseLit.eq_def]
    rw [hstep, if_pos rfl]
    exact parseLit_append ls rest

theorem headNotDigit_cons (c : Char) (cs : List Char)
    (h : c.isDigit = false) : headNotDigit (c :: cs) := h

theorem asString_toList (s : String) : s.toList.asString = s := rfl

set_option maxHeartbeats 2000000 in
/-- Parsing the marshalled entry object recovers the entry, for every entry
and every trailing input. -/
theorem parseEntry_marshalEntry (e : LogEntry) (rest : List Char) :
    parseEntry (marshalEntry e ++ rest) = some (e, rest) := by
  have hInt : ∀ T : List Char,
      parseInt (intRepr e.ID ++ (litTs ++ T)) = some (e.ID, litTs ++ T) :=
    fun T => parseInt_intRepr e.ID (litTs ++ T)
      (headNotDigit_cons ',' _ (by decide))
  rw [marshalEntry, List.cons_append]
  simp only [List.append_assoc, List.cons_append, List.nil_append]
  simp only [parseEntry, parseLit_append, hInt, parseStringBody_escString,
    asString_toList]

theorem parseMore_close (fuel : Nat) (rest : List Char) :
    parseMore fuel (']' :: rest) = some ([], rest) := by
  rw [parseMore.eq_def]
  rfl

theorem parseMore_comma (f : Nat) (rest : List Char) :
    parseMore (f + 1) (',' :: rest) =
      (match parseEntry rest with
        | none => none
        | some (e, cs2) =>
          match parseMore f cs2 with
          | none => none
          | some (es, cs3) => some (e :: es, cs3)) := by
  rw [parseMore.eq_def]
  rfl

theorem parseMore_entryListTail :
    ∀ (es : List LogEntry) (fuel : Nat) (rest : List Char),
    es.length ≤ fuel →
    parseMore fuel (entryListTail es ++ (']' :: rest)) = some (es, rest)
  | [], fuel, rest, _ => by
    rw [entryListTail, List.nil_append, parseMore_close]
  | e :: tl, fuel, rest, h => by
    match fuel, h with
    | f + 1, h =>
      rw [entryListTail, List.cons_append, List.append_assoc,
        parseMore_comma]
      simp only [parseEntry_marshalEntry e (entryListTail tl ++ (']' :: rest)),
        parseMore_entryListTail tl f rest (by simp at h; omega)]

/-- Each remaining entry contributes at least its separating comma, so the
character count bounds the entry count. -/
theorem entryListTail_length_le :
    ∀ (es : List LogEntry) (X : List Char),
    es.length ≤ (entryListTail es ++ X).length
  | [], X => by simp [entryListTail]
  | e :: tl, X => by
    have := entryListTail_length_le tl X
    simp only [entryListTail, List.cons_append, List.length_cons,
      List.length_append] at *
    omega

theorem parseLogEntries_jsonMarshal (logs : List LogEntry) :
    parseLogEntries (jsonMarshalLogs logs) = some logs := by
  cases logs with
  | nil => decide
  | cons e tl =>
    have hstep1 : parseLogEntries (jsonMarshalLogs (e :: tl)) =
        (match parseEntry (marshalEntry e ++ (entryListTail tl ++ (']' :: []))) with
          | none => none
          | some (e2, cs2) =>
            match parseMore cs2.length cs2 with
            | none => none
            | some (es, cs3) => if cs3 = [] then some (e2 :: es) else none) :=
      rfl
    rw [hstep1, parseEntry_marshalEntry e (entryListTail tl ++ (']' :: []))]
    simp only [parseMore_entryListTail tl
      ((entryListTail tl ++ (']' :: [])).length) []
      (entryListTail_length_le tl (']' :: []))]
    simp

theorem b64Val_b64Char (s : Nat) (h : s < 64) : b64Val (b64Char s) = some s := by
  revert h
  revert s
  decide

theorem b64Char_ne_pad (s : Nat) (h : s < 64) : ¬ b64Char s = '=' := by
  revert h
  revert s
  decide

theorem base64_roundtrip :
    ∀ (bs : List Nat), (∀ b ∈ bs, b < 256) →
    base64Decode (base64Encode bs) = some bs
  | [], _ => by decide
  | [b], h => by
    have hb : b < 256 := h b (List.mem_cons_self _ _)
    have h1 := b64Val_b64Char (b / 4) (by omega)
    have h2 := b64Val_b64Char (b % 4 * 16) (by omega)
    have hval : b / 4 * 4 + b % 4 * 16 / 16 = b := by omega
    rw [base64Encode]
    rw [show ([b64Char (b / 4), b64Char (b % 4 * 16), '=', '='] : List Char) =
      b64Char (b / 4) :: b64Char (b % 4 * 16) :: '=' :: '=' :: [] from rfl]
    rw [base64Decode.eq_def]
    simp [h1, h2, hval]
    omega
  | [b, c], h => by
    have hb : b < 256 := h b (List.mem_cons_self _ _)
    have hc : c < 256 := h c (List.mem_cons_of_mem _ (List.mem_cons_self _ _))
    have h1 := b64Val_b64Char (b / 4) (by omega)
    have h2 := b64Val_b64Char (b % 4 * 16 + c / 16) (by omega)
    have h3 := b64Val_b64Char (c % 16 * 4) (by omega)
    have hne := b64Char_ne_pad (c % 16 * 4) (by omega)
    have hv1 : b / 4 * 4 + (b % 4 * 16 + c / 16) / 16 = b := by omega
    have hv2 : (b % 4 * 16 + c / 16) % 16 * 16 + c % 16 * 4 / 4 = c := by
      omega
    rw [base64Encode]
    rw [show ([b64Char (b / 4), b64Char (b % 4 * 16 + c / 16),
        b64Char (c % 16 * 4), '='] : List Char) =
      b64Char (b / 4) :: b64Char (b % 4 * 16 + c / 16) ::
        b64Char (c % 16 * 4) :: '=' :: [] from rfl]
    rw [base64Decode.eq_def]
    simp [h1, h2, h3, hne, hv1, hv2]
    omega
  | [b, c, d], h => by
    have hb : b < 256 := h b (by simp)
    have hc : c < 256 := h c (by simp)
    have hd : d < 256 := h d (by simp)
    have h1 := b64Val_b64Char (b / 4) (by omega)
    have h2 := b64Val_b64Char (b % 4 * 16 + c / 16) (by omega)
    have h3 := b64Val_b64Char (c % 16 * 4 + d / 64) (by omega)
    have h4 := b64Val_b64Char (d % 64) (by omega)
    have hne1 := b64Char_ne_pad (c % 16 * 4 + d / 64) (by omega)
    have hne2 := b64Char_ne_pad (d % 64) (by omega)
    have hv1 : b / 4 * 4 + (b % 4 * 16 + c / 16) / 16 = b := by omega
    have hv2 : (b % 4 * 16 + c / 16) % 16 * 16 + (c % 16 * 4 + d / 64) / 4 =
        c := by omega
    have hv3 : (c % 16 * 4 + d / 64) % 4 * 64 + d % 64 = d := by omega
    have hnil : base64Decode [] = some [] := by decide
    rw [base64Encode]
    rw [base64Decode.eq_def]
    simp [h1, h2, h3, h4, hne1, hne2, hv1, hv2, hv3, base64Encode, hnil]
  | b :: c :: d :: e2 :: rest, h => by
    have hb : b < 256 := h b (by simp)
    have hc : c < 256 := h c (by simp)
    have hd : d < 256 := h d (by simp)
    have h1 := b64Val_b64Char (b / 4) (by omega)
    have h2 := b64Val_b64Char (b % 4 * 16 + c / 16) (by omega)
    have h3 := b64Val_b64Char (c % 16 * 4 + d / 64) (by omega)
    have h4 := b64Val_b64Char (d % 64) (by omega)
    have hne1 := b64Char_ne_pad (c % 16 * 4 + d / 64) (by omega)
    have hne2 := b64Char_ne_pad (d % 64) (by omega)
    have hv1 : b / 4 * 4 + (b % 4 * 16 + c / 16) / 16 = b := by omega
    have hv2 : (b % 4 * 16 + c / 16) % 16 * 16 + (c % 16 * 4 + d / 64) / 4 =
        c := by omega
    have hv3 : (c % 16 * 4 + d / 64) % 4 * 64 + d % 64 = d := by omega
    have hrec := base64_roundtrip (e2 :: rest)
      (fun x hx => h x (by simp at hx; rcases hx with hx | hx <;> simp [hx]))
    rw [base64Encode]
    rw [base64Decode.eq_def]
    simp [h1, h2, h3, h4, hne1, hne2, hv1, hv2, hv3, hrec]

/-- Every UTF-8 byte is below 256. -/
theorem utf8Bytes_lt (s : String) : ∀ b ∈ utf8Bytes s, b < 256 := by
  intro b hb
  rw [utf8Bytes, List.mem_map] at hb
  obtain ⟨u, _, hu⟩ := hb
  rw [← hu]
  exact u.toNat_lt

/-- Claim C5: round-trip of the bulk export.  For every snapshot,
base64-decoding the bulk-export blob `handleAdmin` builds
(`base64Encode` of the UTF-8 bytes of the marshalled JSON) recovers
exactly those bytes, and parsing the marshalled JSON document yields a
sequence of entries equal field-by-field to the snapshot it was built
from. -/
theorem c5_bulk_export_roundtrip (logs : List LogEntry) :
    base64Decode (allLogsBase64 logs) =
        some (utf8Bytes (jsonMarshalLogs logs)) ∧
      parseLogEntries (jsonMarshalLogs logs) = some logs :=
  ⟨base64_roundtrip (utf8Bytes (allLogsJson logs))
      (utf8Bytes_lt (allLogsJson logs)),
    parseLogEntries_jsonMarshal logs⟩

end GoSsrfServ

